import Mathlib

/-!
Verification of the dir-diff directory comparison library.

We give a shallow embedding of the core of the crate:

* the data model of iter.rs: DirEntry (a path plus an optional file kind,
  absent kind meaning the path does not exist), DiffEntry (a left/right pair
  of DirEntry values for one relative path), the assertion policy methods
  assert, assert_exists, assert_file_type, assert_content, and the content
  comparator content_matches / read_to_vec;
* the paired walk iterator of iter.rs: IntoIter.transposed_next and the
  sequence of entries it yields;
* the facade is_different of lib.rs, which zips two name-sorted walkdir
  traversals and compares depth, file kind, file name and byte content;
* the Clone implementation of InnerIoError from error.rs, modelled with an
  explicit stack-depth fuel because the source recursion is unbounded.

Paths are lists of components.  A filesystem is modelled in two ways that the
source also keeps separate: a Tree is the list of entries a walkdir traversal
of one root produces, in traversal order (each entry carrying its relative
path, its file kind, and its byte content); an FS maps absolute paths to the
data of readable regular files and is consulted by content reads only.
-/

namespace DirDiffVerify

/-- Path as a list of components. -/
abbrev Path := List String

/-- File kinds as reported by symlink_metadata and walkdir: regular file,
directory, symbolic link, or some other kind (socket, fifo, ...). -/
inductive FileType where
  | file
  | dir
  | symlink
  | other
deriving DecidableEq

/-- Mirrors fs::FileType::is_file. -/
def FileType.is_file : FileType → Bool
  | .file => true
  | _ => false

/-- Data stored at a readable regular file: its bytes together with metadata
(modification time, permissions) that byte reads never look at. -/
structure FileData where
  bytes : List Nat
  mtime : Nat
  perms : Nat
deriving DecidableEq

/-- The filesystem as seen by content reads: an association list from
absolute path to file data.  A path absent from the list fails to open. -/
abbrev FS := List (Path × FileData)

/-- Errors from low-level I/O.  File::open on a path that is not a readable
regular file fails; the payload records which path failed. -/
inductive IoErr where
  | notFound (p : Path)
deriving DecidableEq

/-- Look up the full file data (bytes and metadata) stored at a path. -/
def FS.lookupData (fs : FS) (file : Path) : Option FileData :=
  (fs.find? (fun q => decide (q.1 = file))).map (fun q => q.2)

/-- Mirrors DiffEntry::read_to_vec (iter.rs): open the file and read all its
bytes; an open failure surfaces as an I/O error. -/
def FS.read_to_vec (fs : FS) (file : Path) : Except IoErr (List Nat) :=
  match FS.lookupData fs file with
  | some d => .ok d.bytes
  | none => .error (.notFound file)

/-- Mirrors DirEntry (iter.rs): the full path this entry represents, and the
file kind, which is none when the path does not exist. -/
structure DirEntry where
  path : Path
  file_type : Option FileType
deriving DecidableEq

/-- Mirrors DiffEntry (iter.rs): the two paths to compare. -/
structure DiffEntry where
  left : DirEntry
  right : DirEntry
deriving DecidableEq

/-- Mirrors AssertionKind (error.rs). -/
inductive AssertionKind where
  | Missing
  | FileType
  | Content
deriving DecidableEq

/-- Mirrors AssertionError (error.rs): the kind of difference, the offending
entry by value, an optional message and an optional underlying I/O cause. -/
structure AssertionError where
  kind : AssertionKind
  entry : DiffEntry
  msg : Option String
  cause : Option IoErr
deriving DecidableEq

/-- Mirrors AssertionError::new (error.rs). -/
def AssertionError.new (kind : AssertionKind) (entry : DiffEntry) : AssertionError :=
  { kind := kind, entry := entry, msg := none, cause := none }

/-- Mirrors AssertionError::with_cause (error.rs). -/
def AssertionError.with_cause (self : AssertionError) (err : IoErr) : AssertionError :=
  { self with cause := some err }

/-- Mirrors DiffEntry::into_error (iter.rs). -/
def DiffEntry.into_error (self : DiffEntry) (kind : AssertionKind) : AssertionError :=
  AssertionError.new kind self

/-- Mirrors DiffEntry::file_types (iter.rs). -/
def DiffEntry.file_types (self : DiffEntry) : Option FileType × Option FileType :=
  (self.left.file_type, self.right.file_type)

/-- Mirrors DiffEntry::are_files (iter.rs). -/
def DiffEntry.are_files (self : DiffEntry) : Bool :=
  let p := self.file_types
  ((p.1.map FileType.is_file).getD false) && ((p.2.map FileType.is_file).getD false)

/-- Mirrors DiffEntry::content_matches (iter.rs): read both files fully and
compare the byte vectors; the first failing read propagates. -/
def DiffEntry.content_matches (fs : FS) (self : DiffEntry) : Except IoErr Bool :=
  match FS.read_to_vec fs self.left.path with
  | .error e => .error e
  | .ok l =>
    match FS.read_to_vec fs self.right.path with
    | .error e => .error e
    | .ok r => .ok (decide (l = r))

/-- Mirrors DiffEntry::assert (iter.rs), the composite default policy. -/
def DiffEntry.assert (fs : FS) (self : DiffEntry) : Except AssertionError DiffEntry :=
  match self.file_types with
  | (some l, some r) =>
    if l ≠ r then
      .error (self.into_error .FileType)
    else if l.is_file then
      -- Because of the l = r test, the right side is also a file.
      match self.content_matches fs with
      | .ok true => .ok self
      | .ok false => .error (self.into_error .Content)
      | .error e => .error ((self.into_error .Content).with_cause e)
    else
      .ok self
  | _ => .error (self.into_error .Missing)

/-- Mirrors DiffEntry::assert_exists (iter.rs). -/
def DiffEntry.assert_exists (self : DiffEntry) : Except AssertionError DiffEntry :=
  match self.file_types with
  | (some _, some _) => .ok self
  | _ => .error (self.into_error .Missing)

/-- Mirrors DiffEntry::assert_file_type (iter.rs). -/
def DiffEntry.assert_file_type (self : DiffEntry) : Except AssertionError DiffEntry :=
  match self.file_types with
  | (some l, some r) =>
    if l ≠ r then
      .error (self.into_error .FileType)
    else
      .ok self
  | _ => .ok self

/-- Mirrors DiffEntry::assert_content (iter.rs). -/
def DiffEntry.assert_content (fs : FS) (self : DiffEntry) : Except AssertionError DiffEntry :=
  if !self.are_files then
    .ok self
  else
    match self.content_matches fs with
    | .ok true => .ok self
    | .ok false => .error (self.into_error .Content)
    | .error e => .error ((self.into_error .Content).with_cause e)

/-- Whether the default policy accepts an entry. -/
def assertPasses (fs : FS) (de : DiffEntry) : Bool :=
  match de.assert fs with
  | .ok _ => true
  | .error _ => false

/-!
The paired walk iterator of iter.rs.

A Tree is the contents of one root: the list of entries a walkdir traversal
with min_depth 1 yields, in traversal order.  Each entry records its path
relative to the root, its file kind, and (for regular files) its bytes.
Existence checks and symlink_metadata calls against that root are answered
from the same tree, which models a filesystem that does not change during
the walk.
-/

/-- One walkdir entry of one root: relative path, file kind, byte content. -/
structure FsEntry where
  relPath : Path
  ftype : FileType
  content : List Nat
deriving DecidableEq

/-- The entries of one root, in traversal order. -/
abbrev Tree := List FsEntry

/-- Models path.exists() against the filesystem under one root. -/
def Tree.existsAt (t : Tree) (p : Path) : Bool :=
  t.any (fun e => decide (e.relPath = p))

/-- Models fs::symlink_metadata().file_type() against the filesystem under one
root: the kind recorded at the relative path, or none when absent. -/
def Tree.lookup (t : Tree) (p : Path) : Option FileType :=
  (t.find? (fun e => decide (e.relPath = p))).map FsEntry.ftype

/-- Mirrors the IntoIter state (iter.rs): the two roots and the two walkdir
cursors, together with the (immutable) filesystem each cursor walks, which
answers the existence and metadata queries the iterator makes. -/
structure IntoIter where
  left_root : Path
  leftTree : Tree
  left_walk : List FsEntry
  right_root : Path
  rightTree : Tree
  right_walk : List FsEntry
deriving DecidableEq

/-- Mirrors the while-let loop over the right walker inside transposed_next
(iter.rs): skip right entries whose relative path exists on the left (they
were paired during the left-driven phase); for the first one missing on the
left, yield a missing-left / existing-right pair and the remaining cursor. -/
def rightPhase (left_root : Path) (leftTree : Tree) (right_root : Path) (rightTree : Tree) :
    List FsEntry → Option (DiffEntry × List FsEntry)
  | [] => none
  | entry :: rest =>
    let relative := entry.relPath
    let leftPath := left_root ++ relative
    if Tree.existsAt leftTree relative then
      -- left.exists() was covered by the left-driven phase
      rightPhase left_root leftTree right_root rightTree rest
    else
      let left : DirEntry := { path := leftPath, file_type := none }
      let right : DirEntry :=
        { path := right_root ++ relative, file_type := Tree.lookup rightTree relative }
      some ({ left := left, right := right }, rest)

/-- Mirrors IntoIter::transposed_next (iter.rs).  While the left walker has
entries: take the next left entry, resolve the same relative path under the
right root (existing or missing), re-stat the left path, and yield the pair.
Once the left walker is drained, run the right-driven phase. -/
def IntoIter.transposed_next (s : IntoIter) : Option (DiffEntry × IntoIter) :=
  match s.left_walk with
  | entry :: rest =>
    let relative := entry.relPath
    let rightPath := s.right_root ++ relative
    let right : DirEntry :=
      if Tree.existsAt s.rightTree relative then
        { path := rightPath, file_type := Tree.lookup s.rightTree relative }
      else
        { path := rightPath, file_type := none }
    let left : DirEntry :=
      { path := s.left_root ++ relative, file_type := Tree.lookup s.leftTree relative }
    some ({ left := left, right := right }, { s with left_walk := rest })
  | [] =>
    match rightPhase s.left_root s.leftTree s.right_root s.rightTree s.right_walk with
    | none => none
    | some (de, rest) => some (de, { s with right_walk := rest })

/-- Run the iterator to exhaustion, collecting every yielded entry.  The fuel
bounds the number of steps; every step consumes at least one element of a
cursor, so the combined cursor length is always enough fuel. -/
def IntoIter.drainFuel : Nat → IntoIter → List DiffEntry
  | 0, _ => []
  | n + 1, s =>
    match s.transposed_next with
    | none => []
    | some (de, s') => de :: IntoIter.drainFuel n s'

/-- The full sequence of entries the iterator yields. -/
def IntoIter.drain (s : IntoIter) : List DiffEntry :=
  IntoIter.drainFuel (s.left_walk.length + s.right_walk.length) s

/-- Mirrors DirDiff::into_iter (iter.rs): start both walkdir cursors at the
beginning of the corresponding tree. -/
def DirDiff.into_iter (left_root : Path) (leftTree : Tree) (right_root : Path)
    (rightTree : Tree) : IntoIter :=
  { left_root := left_root, leftTree := leftTree, left_walk := leftTree,
    right_root := right_root, rightTree := rightTree, right_walk := rightTree }

/-- The pair transposed_next yields for a left-walk entry. -/
def leftPair (left_root : Path) (leftTree : Tree) (right_root : Path) (rightTree : Tree)
    (e : FsEntry) : DiffEntry :=
  { left := { path := left_root ++ e.relPath, file_type := Tree.lookup leftTree e.relPath },
    right :=
      if Tree.existsAt rightTree e.relPath then
        { path := right_root ++ e.relPath, file_type := Tree.lookup rightTree e.relPath }
      else
        { path := right_root ++ e.relPath, file_type := none } }

/-- The pair the right-driven phase yields for a right-walk entry that is
missing on the left. -/
def rightPair (left_root : Path) (right_root : Path) (rightTree : Tree)
    (e : FsEntry) : DiffEntry :=
  { left := { path := left_root ++ e.relPath, file_type := none },
    right := { path := right_root ++ e.relPath, file_type := Tree.lookup rightTree e.relPath } }

/-- Folding the paired walk iterator with the default assertion policy: true
exactly when some yielded entry fails DiffEntry::assert.  This is the
reference semantics the specification gives for the facade. -/
def fold_is_different (fs : FS) (left_root : Path) (leftTree : Tree) (right_root : Path)
    (rightTree : Tree) : Bool :=
  ((DirDiff.into_iter left_root leftTree right_root rightTree).drain).any
    (fun de => !assertPasses fs de)

/-!
The facade is_different of lib.rs.  It does not use the paired walk iterator:
it zips the two name-sorted walkdir traversals (root itself skipped) and
compares depth, file kind, file name and, for regular files, byte content.
-/

/-- One walkdir entry as consumed by is_different (lib.rs): its depth below
the root, its file kind, its file name (last path component) and its full
path. -/
structure WalkEntry where
  depth : Nat
  ftype : FileType
  name : String
  path : Path
deriving DecidableEq

/-- Last path component, or the empty string for the root itself; mirrors
DirEntry::file_name falling back to the full path. -/
def file_name (p : Path) : String :=
  (p.getLast?).getD ""

/-- Mirrors walk_dir (lib.rs): the name-sorted traversal of a root, root
itself skipped.  The tree's list order is the traversal order, which is a
deterministic function of the tree's shape. -/
def walk_dir (root : Path) (t : Tree) : List WalkEntry :=
  t.map (fun e =>
    { depth := e.relPath.length, ftype := e.ftype, name := file_name e.relPath,
      path := root ++ e.relPath })

/-- The comparison made for one zipped pair inside the loop of is_different
(lib.rs): true when depth, kind or name differ, otherwise compare bytes when
the entries are regular files, propagating read errors. -/
def entryDiffers (fs : FS) (a b : WalkEntry) : Except IoErr Bool :=
  if a.depth ≠ b.depth ∨ a.ftype ≠ b.ftype ∨ a.name ≠ b.name then
    .ok true
  else if a.ftype.is_file then
    match FS.read_to_vec fs a.path with
    | .error e => .error e
    | .ok va =>
      match FS.read_to_vec fs b.path with
      | .error e => .error e
      | .ok vb => .ok (decide (va ≠ vb))
  else
    .ok false

/-- The for loop of is_different (lib.rs) over the zipped pairs: return true
at the first differing pair. -/
def is_different_go (fs : FS) : List (WalkEntry × WalkEntry) → Except IoErr Bool
  | [] => .ok false
  | (a, b) :: rest =>
    match entryDiffers fs a b with
    | .error e => .error e
    | .ok true => .ok true
    | .ok false => is_different_go fs rest

/-- How many elements Rust's Iterator::zip consumes from the first iterator:
when the first is longer it probes (and discards) one extra element after the
second is exhausted. -/
def zip_consumed_a (a b : Nat) : Nat :=
  if b < a then b + 1 else a

/-- How many elements Rust's Iterator::zip consumes from the second
iterator. -/
def zip_consumed_b (a b : Nat) : Nat :=
  min a b

/-- Mirrors is_different (lib.rs): loop over the zipped walks; if no pair
differs, report whether either walker still yields an entry after the zip's
consumption. -/
def is_different (fs : FS) (a_walk b_walk : List WalkEntry) : Except IoErr Bool :=
  match is_different_go fs (a_walk.zip b_walk) with
  | .error e => .error e
  | .ok true => .ok true
  | .ok false =>
    .ok (!((a_walk.drop (zip_consumed_a a_walk.length b_walk.length)).isEmpty)
      || !((b_walk.drop (zip_consumed_b a_walk.length b_walk.length)).isEmpty))

/-!
The Clone implementation of InnerIoError (error.rs).
-/

/-- Mirrors InnerIoError (error.rs).  The payloads of the Io and WalkDir
variants are opaque at this layer; each is modelled by what the claims need:
the I/O error value, resp. an abstract token. -/
inductive InnerIoError where
  | Io (e : IoErr)
  | WalkDir (w : Nat)
  | WalkDirEmpty
deriving DecidableEq

/-- Mirrors the Clone implementation for InnerIoError (error.rs), with an
explicit call-stack fuel: the Io and WalkDirEmpty arms evaluate self.clone(),
a recursive call of the same method on the same value, while the WalkDir arm
returns WalkDirEmpty.  A result of none means the call has not returned
within the given stack depth. -/
def InnerIoError.cloneFuel : Nat → InnerIoError → Option InnerIoError
  | 0, _ => none
  | n + 1, e =>
    match e with
    | .Io _ | .WalkDirEmpty => InnerIoError.cloneFuel n e
    | .WalkDir _ => some .WalkDirEmpty

/-!
Helper lemmas about trees and the iterator.
-/

theorem Tree.existsAt_iff (t : Tree) (p : Path) :
    Tree.existsAt t p = true ↔ ∃ e ∈ t, e.relPath = p := by
  simp [Tree.existsAt, List.any_eq_true]

theorem Tree.existsAt_of_mem {t : Tree} {e : FsEntry} (h : e ∈ t) :
    Tree.existsAt t e.relPath = true :=
  (Tree.existsAt_iff t e.relPath).mpr ⟨e, h, rfl⟩

theorem Tree.lookup_isSome_of_mem {t : Tree} {e : FsEntry} (h : e ∈ t) :
    (Tree.lookup t e.relPath).isSome = true := by
  have hfind : (t.find? (fun x => decide (x.relPath = e.relPath))).isSome = true :=
    List.find?_isSome.mpr ⟨e, h, by simp⟩
  simpa [Tree.lookup, Option.isSome_map'] using hfind

theorem Tree.lookup_of_mem_nodup {t : Tree} {e : FsEntry}
    (hnd : (t.map FsEntry.relPath).Nodup) (h : e ∈ t) :
    Tree.lookup t e.relPath = some e.ftype := by
  induction t with
  | nil => cases h
  | cons a rest ih =>
    rcases List.mem_cons.mp h with rfl | hmem
    · rw [Tree.lookup, List.find?_cons_of_pos _ (by simp)]
      rfl
    · have hnotin : a.relPath ∉ rest.map FsEntry.relPath := (List.nodup_cons.mp hnd).1
      have hne : ¬(a.relPath = e.relPath) := by
        intro hcontra
        exact hnotin (hcontra ▸ List.mem_map.mpr ⟨e, hmem, rfl⟩)
      rw [Tree.lookup, List.find?_cons_of_neg _ (by simpa using hne)]
      exact ih (List.nodup_cons.mp hnd).2 hmem

theorem Tree.lookup_eq_none_of_not_existsAt {t : Tree} {p : Path}
    (h : Tree.existsAt t p = false) : Tree.lookup t p = none := by
  have hall : ∀ e ∈ t, ¬(e.relPath = p) := by
    intro e he hep
    have htrue : Tree.existsAt t p = true := (Tree.existsAt_iff t p).mpr ⟨e, he, hep⟩
    rw [htrue] at h
    cases h
  rw [Tree.lookup, List.find?_eq_none.mpr (by intro x hx; simpa using hall x hx)]
  rfl

theorem drainFuel_right (lr : Path) (lt : Tree) (rr : Path) (rt : Tree) :
    ∀ (rw : List FsEntry) (n : Nat), rw.length ≤ n →
      IntoIter.drainFuel n ⟨lr, lt, [], rr, rt, rw⟩ =
        (rw.filter (fun e => !(Tree.existsAt lt e.relPath))).map (rightPair lr rr rt) := by
  intro rw
  induction rw with
  | nil =>
    intro n _
    cases n with
    | zero => simp [IntoIter.drainFuel]
    | succ m => simp [IntoIter.drainFuel, IntoIter.transposed_next, rightPhase]
  | cons e rest ih =>
    intro n hn
    cases n with
    | zero => simp at hn
    | succ m =>
      cases hex : Tree.existsAt lt e.relPath with
      | true =>
        have hstep : IntoIter.transposed_next ⟨lr, lt, [], rr, rt, e :: rest⟩
            = IntoIter.transposed_next ⟨lr, lt, [], rr, rt, rest⟩ := by
          simp [IntoIter.transposed_next, rightPhase, hex]
        have hrec := ih (m + 1) (by simp at hn; omega)
        calc IntoIter.drainFuel (m + 1) ⟨lr, lt, [], rr, rt, e :: rest⟩
            = IntoIter.drainFuel (m + 1) ⟨lr, lt, [], rr, rt, rest⟩ := by
              simp only [IntoIter.drainFuel]
              rw [hstep]
          _ = _ := by
              rw [hrec, List.filter_cons]
              simp [hex]
      | false =>
        have hstep : IntoIter.transposed_next ⟨lr, lt, [], rr, rt, e :: rest⟩
            = some (rightPair lr rr rt e, ⟨lr, lt, [], rr, rt, rest⟩) := by
          simp [IntoIter.transposed_next, rightPhase, hex, rightPair]
        have hrec := ih m (by simp at hn; omega)
        simp only [IntoIter.drainFuel, hstep, hrec, List.filter_cons, hex]
        simp

theorem drainFuel_spec (lr : Path) (lt : Tree) (rr : Path) (rt : Tree) :
    ∀ (lw rw : List FsEntry) (n : Nat), lw.length + rw.length ≤ n →
      IntoIter.drainFuel n ⟨lr, lt, lw, rr, rt, rw⟩ =
        lw.map (leftPair lr lt rr rt)
          ++ (rw.filter (fun e => !(Tree.existsAt lt e.relPath))).map (rightPair lr rr rt) := by
  intro lw
  induction lw with
  | nil =>
    intro rw n hn
    simpa using drainFuel_right lr lt rr rt rw n (by simpa using hn)
  | cons e rest ih =>
    intro rw n hn
    cases n with
    | zero => simp at hn
    | succ m =>
      have hstep : IntoIter.transposed_next ⟨lr, lt, e :: rest, rr, rt, rw⟩
          = some (leftPair lr lt rr rt e, ⟨lr, lt, rest, rr, rt, rw⟩) := by
        simp [IntoIter.transposed_next, leftPair]
      have hrec := ih rw m (by simp at hn; omega)
      simp only [IntoIter.drainFuel, hstep, hrec]
      simp

theorem drain_eq (lr : Path) (lt : Tree) (rr : Path) (rt : Tree) :
    (DirDiff.into_iter lr lt rr rt).drain =
      lt.map (leftPair lr lt rr rt)
        ++ (rt.filter (fun e => !(Tree.existsAt lt e.relPath))).map (rightPair lr rr rt) := by
  unfold IntoIter.drain DirDiff.into_iter
  exact drainFuel_spec lr lt rr rt lt rt _ (le_refl _)

/-- Only the regular-file kind satisfies is_file. -/
theorem FileType.is_file_iff (k : FileType) : k.is_file = true ↔ k = .file := by
  cases k <;> simp [FileType.is_file]

/-- A DiffEntry fails the are_files test exactly when one of its sides is not
a present regular file. -/
theorem are_files_eq_false_iff (de : DiffEntry) :
    de.are_files = false ↔
      (de.left.file_type ≠ some .file ∨ de.right.file_type ≠ some .file) := by
  cases hl : de.left.file_type with
  | none => simp [DiffEntry.are_files, DiffEntry.file_types, hl]
  | some k =>
    cases hr : de.right.file_type with
    | none => simp [DiffEntry.are_files, DiffEntry.file_types, hl, hr]
    | some k' =>
      cases k <;> cases k' <;>
        simp [DiffEntry.are_files, DiffEntry.file_types, hl, hr, FileType.is_file]

/-!
Claim theorems.
-/

/-- C1: the composite default policy classifies in a fixed order.  If either
side's file kind is absent it fails with Missing; otherwise, if the two
present kinds differ it fails with FileType; otherwise, if both sides are
regular files it succeeds exactly when their byte contents are equal and any
failure carries kind Content; in all remaining cases (both sides present
with the same non-regular-file kind) it succeeds for every filesystem,
without reading any content. -/
theorem default_assert_order (fs : FS) (de : DiffEntry) :
    ((de.left.file_type = none ∨ de.right.file_type = none) →
      de.assert fs = .error (AssertionError.new .Missing de)) ∧
    (∀ a b : FileType, de.left.file_type = some a → de.right.file_type = some b →
      a ≠ b → de.assert fs = .error (AssertionError.new .FileType de)) ∧
    (∀ bl br : List Nat, de.left.file_type = some .file → de.right.file_type = some .file →
      FS.read_to_vec fs de.left.path = .ok bl → FS.read_to_vec fs de.right.path = .ok br →
      ((de.assert fs = .ok de ↔ bl = br) ∧
        (bl ≠ br → de.assert fs = .error (AssertionError.new .Content de)))) ∧
    (de.left.file_type = some .file → de.right.file_type = some .file →
      ∀ err : AssertionError, de.assert fs = .error err → err.kind = .Content) ∧
    (∀ k : FileType, k.is_file = false → de.left.file_type = some k →
      de.right.file_type = some k → ∀ fs2 : FS, de.assert fs2 = .ok de) := by
  refine ⟨?_, ?_, ?_, ?_, ?_⟩
  · rintro (h | h)
    · cases hr : de.right.file_type <;>
        simp [DiffEntry.assert, DiffEntry.file_types, h, hr, DiffEntry.into_error,
          AssertionError.new]
    · cases hl : de.left.file_type <;>
        simp [DiffEntry.assert, DiffEntry.file_types, h, hl, DiffEntry.into_error,
          AssertionError.new]
  · intro a b ha hb hab
    simp [DiffEntry.assert, DiffEntry.file_types, ha, hb, hab, DiffEntry.into_error,
      AssertionError.new]
  · intro bl br ha hb hbl hbr
    have hcm : de.content_matches fs = .ok (decide (bl = br)) := by
      simp [DiffEntry.content_matches, hbl, hbr]
    by_cases hbb : bl = br
    · have hok : de.assert fs = .ok de := by
        simp [DiffEntry.assert, DiffEntry.file_types, ha, hb, FileType.is_file, hcm, hbb]
      exact ⟨by simp [hok, hbb], fun hne => absurd hbb hne⟩
    · have herr : de.assert fs = .error (AssertionError.new .Content de) := by
        simp [DiffEntry.assert, DiffEntry.file_types, ha, hb, FileType.is_file, hcm, hbb,
          DiffEntry.into_error]
      exact ⟨by simp [herr, hbb], fun _ => herr⟩
  · intro ha hb err herr
    have hcases : de.assert fs = .ok de ∨
        de.assert fs = .error (AssertionError.new .Content de) ∨
        ∃ e : IoErr, de.assert fs = .error ((AssertionError.new .Content de).with_cause e) := by
      cases hcm : de.content_matches fs with
      | ok b =>
        cases b <;>
          simp [DiffEntry.assert, DiffEntry.file_types, ha, hb, FileType.is_file, hcm,
            DiffEntry.into_error]
      | error e =>
        right; right
        exact ⟨e, by simp [DiffEntry.assert, DiffEntry.file_types, ha, hb,
          FileType.is_file, hcm, DiffEntry.into_error]⟩
    rcases hcases with h | h | ⟨e, h⟩ <;> rw [h] at herr
    · exact Except.noConfusion herr
    · injection herr with h2
      rw [← h2]
      rfl
    · injection herr with h2
      rw [← h2]
      rfl
  · intro k hk hkl hkr fs2
    simp [DiffEntry.assert, DiffEntry.file_types, hkl, hkr, hk]

/-- Witness for C1: an entry whose left side is absent fails with Missing. -/
theorem default_assert_order_witness :
    DiffEntry.assert []
        { left := { path := ["L", "x"], file_type := none },
          right := { path := ["R", "x"], file_type := some .file } }
      = .error (AssertionError.new .Missing
          { left := { path := ["L", "x"], file_type := none },
            right := { path := ["R", "x"], file_type := some .file } }) :=
  (default_assert_order []
    { left := { path := ["L", "x"], file_type := none },
      right := { path := ["R", "x"], file_type := some .file } }).1 (Or.inl rfl)

/-- C6: assert_file_type fails (with FileType) exactly when both sides are
present and their kinds differ; its result is always either success with the
entry or that failure; and whenever either side is absent it succeeds. -/
theorem assert_file_type_spec (de : DiffEntry) :
    (de.assert_file_type = .error (AssertionError.new .FileType de) ↔
      ∃ a b : FileType, de.left.file_type = some a ∧ de.right.file_type = some b ∧ a ≠ b) ∧
    (de.assert_file_type = .ok de ∨
      de.assert_file_type = .error (AssertionError.new .FileType de)) ∧
    ((de.left.file_type = none ∨ de.right.file_type = none) →
      de.assert_file_type = .ok de) := by
  refine ⟨?_, ?_, ?_⟩
  · constructor
    · intro h
      cases hl : de.left.file_type with
      | none =>
        rw [DiffEntry.assert_file_type] at h
        cases hr : de.right.file_type <;> simp [DiffEntry.file_types, hl, hr] at h
      | some a =>
        cases hr : de.right.file_type with
        | none =>
          rw [DiffEntry.assert_file_type] at h
          simp [DiffEntry.file_types, hl, hr] at h
        | some b =>
          refine ⟨a, b, rfl, rfl, ?_⟩
          intro hab
          rw [DiffEntry.assert_file_type] at h
          simp [DiffEntry.file_types, hl, hr, hab] at h
    · rintro ⟨a, b, ha, hb, hab⟩
      simp [DiffEntry.assert_file_type, DiffEntry.file_types, ha, hb, hab,
        DiffEntry.into_error]
  · cases hl : de.left.file_type with
    | none =>
      left
      cases hr : de.right.file_type <;>
        simp [DiffEntry.assert_file_type, DiffEntry.file_types, hl, hr]
    | some a =>
      cases hr : de.right.file_type with
      | none => left; simp [DiffEntry.assert_file_type, DiffEntry.file_types, hl, hr]
      | some b =>
        by_cases hab : a = b
        · left
          simp [DiffEntry.assert_file_type, DiffEntry.file_types, hl, hr, hab]
        · right
          simp [DiffEntry.assert_file_type, DiffEntry.file_types, hl, hr, hab,
            DiffEntry.into_error]
  · rintro (h | h)
    · cases hr : de.right.file_type <;>
        simp [DiffEntry.assert_file_type, DiffEntry.file_types, h, hr]
    · cases hl : de.left.file_type <;>
        simp [DiffEntry.assert_file_type, DiffEntry.file_types, h, hl]

/-- Witness for C6: a dir on the left and a regular file on the right fail
with FileType. -/
theorem assert_file_type_spec_witness :
    DiffEntry.assert_file_type
        { left := { path := ["L", "x"], file_type := some .dir },
          right := { path := ["R", "x"], file_type := some .file } }
      = .error (AssertionError.new .FileType
          { left := { path := ["L", "x"], file_type := some .dir },
            right := { path := ["R", "x"], file_type := some .file } }) :=
  (assert_file_type_spec
    { left := { path := ["L", "x"], file_type := some .dir },
      right := { path := ["R", "x"], file_type := some .file } }).1.mpr
    ⟨.dir, .file, rfl, rfl, by decide⟩

/-- C7: assert_content is a no-op success, for every filesystem, when either
side is not a present regular file; when both sides are regular files it
succeeds on equal bytes, fails with Content on different bytes, and when the
content comparison itself fails with an I/O error it fails with Content
carrying that error as the underlying cause. -/
theorem assert_content_spec (fs : FS) (de : DiffEntry) :
    ((de.left.file_type ≠ some .file ∨ de.right.file_type ≠ some .file) →
      ∀ fs2 : FS, de.assert_content fs2 = .ok de) ∧
    (∀ bl br : List Nat, de.left.file_type = some .file → de.right.file_type = some .file →
      FS.read_to_vec fs de.left.path = .ok bl → FS.read_to_vec fs de.right.path = .ok br →
      ((bl = br → de.assert_content fs = .ok de) ∧
        (bl ≠ br → de.assert_content fs = .error (AssertionError.new .Content de)))) ∧
    (∀ e : IoErr, de.left.file_type = some .file → de.right.file_type = some .file →
      de.content_matches fs = .error e →
      de.assert_content fs = .error ((AssertionError.new .Content de).with_cause e)) := by
  refine ⟨?_, ?_, ?_⟩
  · intro h fs2
    have hfalse : de.are_files = false := (are_files_eq_false_iff de).mpr h
    simp [DiffEntry.assert_content, hfalse]
  · intro bl br ha hb hbl hbr
    have htrue : de.are_files = true := by
      simp [DiffEntry.are_files, DiffEntry.file_types, ha, hb, FileType.is_file]
    have hcm : de.content_matches fs = .ok (decide (bl = br)) := by
      simp [DiffEntry.content_matches, hbl, hbr]
    constructor
    · intro hbb
      simp [DiffEntry.assert_content, htrue, hcm, hbb]
    · intro hbb
      simp [DiffEntry.assert_content, htrue, hcm, hbb, DiffEntry.into_error]
  · intro e ha hb hcm
    have htrue : de.are_files = true := by
      simp [DiffEntry.are_files, DiffEntry.file_types, ha, hb, FileType.is_file]
    simp [DiffEntry.assert_content, htrue, hcm, DiffEntry.into_error]

/-- Witness for C7: a missing left side makes assert_content succeed with no
comparison. -/
theorem assert_content_spec_witness :
    DiffEntry.assert_content []
        { left := { path := ["L", "x"], file_type := none },
          right := { path := ["R", "x"], file_type := some .file } }
      = .ok { left := { path := ["L", "x"], file_type := none },
              right := { path := ["R", "x"], file_type := some .file } } :=
  (assert_content_spec []
    { left := { path := ["L", "x"], file_type := none },
      right := { path := ["R", "x"], file_type := some .file } }).1
    (Or.inl (by simp)) []

/-- C8: each policy operation, when it succeeds, returns the very entry it
consumed, unchanged; when it fails, the error carries that same entry by
value together with the kind naming the failure. -/
theorem policy_frame_spec (fs : FS) (de : DiffEntry) :
    (∀ x : DiffEntry, de.assert fs = .ok x → x = de) ∧
    (∀ err : AssertionError, de.assert fs = .error err →
      err.entry = de ∧
        (err.kind = .Missing ∨ err.kind = .FileType ∨ err.kind = .Content)) ∧
    (∀ x : DiffEntry, de.assert_exists = .ok x → x = de) ∧
    (∀ err : AssertionError, de.assert_exists = .error err →
      err.entry = de ∧ err.kind = .Missing) ∧
    (∀ x : DiffEntry, de.assert_file_type = .ok x → x = de) ∧
    (∀ err : AssertionError, de.assert_file_type = .error err →
      err.entry = de ∧ err.kind = .FileType) ∧
    (∀ x : DiffEntry, de.assert_content fs = .ok x → x = de) ∧
    (∀ err : AssertionError, de.assert_content fs = .error err →
      err.entry = de ∧ err.kind = .Content) := by
  have hassert : de.assert fs = .ok de ∨
      de.assert fs = .error (AssertionError.new .Missing de) ∨
      de.assert fs = .error (AssertionError.new .FileType de) ∨
      de.assert fs = .error (AssertionError.new .Content de) ∨
      ∃ e : IoErr, de.assert fs = .error ((AssertionError.new .Content de).with_cause e) := by
    cases hl : de.left.file_type with
    | none =>
      cases hr : de.right.file_type <;>
        simp [DiffEntry.assert, DiffEntry.file_types, hl, hr, DiffEntry.into_error]
    | some a =>
      cases hr : de.right.file_type with
      | none => simp [DiffEntry.assert, DiffEntry.file_types, hl, hr, DiffEntry.into_error]
      | some b =>
        by_cases hab : a = b
        · subst hab
          cases hf : a.is_file with
          | false =>
            simp [DiffEntry.assert, DiffEntry.file_types, hl, hr, hf,
              DiffEntry.into_error]
          | true =>
            cases hcm : de.content_matches fs with
            | ok v =>
              cases v <;>
                simp [DiffEntry.assert, DiffEntry.file_types, hl, hr, hf, hcm,
                  DiffEntry.into_error]
            | error e =>
              right; right; right; right
              exact ⟨e, by simp [DiffEntry.assert, DiffEntry.file_types, hl, hr, hf,
                hcm, DiffEntry.into_error]⟩
        · right; right; left
          simp [DiffEntry.assert, DiffEntry.file_types, hl, hr, hab, DiffEntry.into_error]
  have hexists : de.assert_exists = .ok de ∨
      de.assert_exists = .error (AssertionError.new .Missing de) := by
    cases hl : de.left.file_type with
    | none =>
      cases hr : de.right.file_type <;>
        simp [DiffEntry.assert_exists, DiffEntry.file_types, hl, hr, DiffEntry.into_error]
    | some a =>
      cases hr : de.right.file_type <;>
        simp [DiffEntry.assert_exists, DiffEntry.file_types, hl, hr, DiffEntry.into_error]
  have hft : de.assert_file_type = .ok de ∨
      de.assert_file_type = .error (AssertionError.new .FileType de) := by
    cases hl : de.left.file_type with
    | none =>
      cases hr : de.right.file_type <;>
        simp [DiffEntry.assert_file_type, DiffEntry.file_types, hl, hr]
    | some a =>
      cases hr : de.right.file_type with
      | none => simp [DiffEntry.assert_file_type, DiffEntry.file_types, hl, hr]
      | some b =>
        by_cases hab : a = b <;>
          simp [DiffEntry.assert_file_type, DiffEntry.file_types, hl, hr, hab,
            DiffEntry.into_error]
  have hcontent : de.assert_content fs = .ok de ∨
      de.assert_content fs = .error (AssertionError.new .Content de) ∨
      ∃ e : IoErr,
        de.assert_content fs = .error ((AssertionError.new .Content de).with_cause e) := by
    cases haf : de.are_files with
    | false => simp [DiffEntry.assert_content, haf]
    | true =>
      cases hcm : de.content_matches fs with
      | ok v =>
        cases v <;> simp [DiffEntry.assert_content, haf, hcm, DiffEntry.into_error]
      | error e =>
        right; right
        exact ⟨e, by simp [DiffEntry.assert_content, haf, hcm, DiffEntry.into_error]⟩
  refine ⟨?_, ?_, ?_, ?_, ?_, ?_, ?_, ?_⟩
  · intro x hx
    rcases hassert with h | h | h | h | ⟨e, h⟩ <;> rw [h] at hx
    · injection hx with h2; exact h2.symm
    all_goals exact Except.noConfusion hx
  · intro err herr
    rcases hassert with h | h | h | h | ⟨e, h⟩ <;> rw [h] at herr
    · exact Except.noConfusion herr
    all_goals
      injection herr with h2
      rw [← h2]
      simp [AssertionError.new, AssertionError.with_cause]
  · intro x hx
    rcases hexists with h | h <;> rw [h] at hx
    · injection hx with h2; exact h2.symm
    · exact Except.noConfusion hx
  · intro err herr
    rcases hexists with h | h <;> rw [h] at herr
    · exact Except.noConfusion herr
    · injection herr with h2
      rw [← h2]
      exact ⟨rfl, rfl⟩
  · intro x hx
    rcases hft with h | h <;> rw [h] at hx
    · injection hx with h2; exact h2.symm
    · exact Except.noConfusion hx
  · intro err herr
    rcases hft with h | h <;> rw [h] at herr
    · exact Except.noConfusion herr
    · injection herr with h2
      rw [← h2]
      exact ⟨rfl, rfl⟩
  · intro x hx
    rcases hcontent with h | h | ⟨e, h⟩ <;> rw [h] at hx
    · injection hx with h2; exact h2.symm
    all_goals exact Except.noConfusion hx
  · intro err herr
    rcases hcontent with h | h | ⟨e, h⟩ <;> rw [h] at herr
    · exact Except.noConfusion herr
    all_goals
      injection herr with h2
      rw [← h2]
      exact ⟨rfl, rfl⟩

/-- Witness for C8: the Missing error of assert_exists carries the consumed
entry and the Missing kind. -/
theorem policy_frame_spec_witness :
    (AssertionError.new .Missing
        { left := { path := ["L", "x"], file_type := none },
          right := { path := ["R", "x"], file_type := some .file } }).entry
      = { left := { path := ["L", "x"], file_type := none },
          right := { path := ["R", "x"], file_type := some .file } } ∧
    (AssertionError.new .Missing
        { left := { path := ["L", "x"], file_type := none },
          right := { path := ["R", "x"], file_type := some .file } }).kind
      = .Missing :=
  (policy_frame_spec []
    { left := { path := ["L", "x"], file_type := none },
      right := { path := ["R", "x"], file_type := some .file } }).2.2.2.1
    (AssertionError.new .Missing
      { left := { path := ["L", "x"], file_type := none },
        right := { path := ["R", "x"], file_type := some .file } }) rfl

/-- C9: content comparison is exact byte equality and depends only on the
files' bytes — the stored metadata (modification time, permissions) is
arbitrary and does not influence the verdict — and under the default policy
two regular files with different bytes (a trailing newline included) are
classified Content-different. -/
theorem content_exact_spec (fs : FS) (de : DiffEntry) :
    ∀ (bl br : List Nat) (m1 p1 m2 p2 : Nat),
      FS.lookupData fs de.left.path = some { bytes := bl, mtime := m1, perms := p1 } →
      FS.lookupData fs de.right.path = some { bytes := br, mtime := m2, perms := p2 } →
      (de.content_matches fs = .ok (decide (bl = br)) ∧
        (de.left.file_type = some .file → de.right.file_type = some .file → bl ≠ br →
          de.assert fs = .error (AssertionError.new .Content de))) := by
  intro bl br m1 p1 m2 p2 hbl hbr
  have hrl : FS.read_to_vec fs de.left.path = .ok bl := by
    simp [FS.read_to_vec, hbl]
  have hrr : FS.read_to_vec fs de.right.path = .ok br := by
    simp [FS.read_to_vec, hbr]
  have hcm : de.content_matches fs = .ok (decide (bl = br)) := by
    simp [DiffEntry.content_matches, hrl, hrr]
  refine ⟨hcm, ?_⟩
  intro ha hb hbb
  simp [DiffEntry.assert, DiffEntry.file_types, ha, hb, FileType.is_file, hcm, hbb,
    DiffEntry.into_error]

/-- Witness for C9: the same bytes plus a trailing newline on the right, with
different metadata, are judged Content-different. -/
theorem content_exact_spec_witness :
    DiffEntry.content_matches
        [(["L", "f"], { bytes := [120], mtime := 1, perms := 7 }),
         (["R", "f"], { bytes := [120, 10], mtime := 2, perms := 9 })]
        { left := { path := ["L", "f"], file_type := some .file },
          right := { path := ["R", "f"], file_type := some .file } }
      = .ok false ∧
    DiffEntry.assert
        [(["L", "f"], { bytes := [120], mtime := 1, perms := 7 }),
         (["R", "f"], { bytes := [120, 10], mtime := 2, perms := 9 })]
        { left := { path := ["L", "f"], file_type := some .file },
          right := { path := ["R", "f"], file_type := some .file } }
      = .error (AssertionError.new .Content
          { left := { path := ["L", "f"], file_type := some .file },
            right := { path := ["R", "f"], file_type := some .file } }) :=
  ⟨(content_exact_spec
      [(["L", "f"], { bytes := [120], mtime := 1, perms := 7 }),
       (["R", "f"], { bytes := [120, 10], mtime := 2, perms := 9 })]
      { left := { path := ["L", "f"], file_type := some .file },
        right := { path := ["R", "f"], file_type := some .file } }
      [120] [120, 10] 1 7 2 9 rfl rfl).1,
   (content_exact_spec
      [(["L", "f"], { bytes := [120], mtime := 1, perms := 7 }),
       (["R", "f"], { bytes := [120, 10], mtime := 2, perms := 9 })]
      { left := { path := ["L", "f"], file_type := some .file },
        right := { path := ["R", "f"], file_type := some .file } }
      [120] [120, 10] 1 7 2 9 rfl rfl).2 rfl rfl (by decide)⟩

/-- C2: the paired walk iterator yields exactly one entry for each relative
path in the union of the two trees.  Its output decomposes into the
left-driven phase (one pair per left-tree entry) followed by the right-driven
phase (one pair per right-tree entry whose path is missing on the left); the
relative paths of the yielded entries are pairwise distinct; a path is
yielded in the left phase exactly when it exists under the left root, and in
the right phase exactly when it exists only under the right root. -/
theorem paired_walk_union (lr rr : Path) (lt rt : Tree)
    (hl : (lt.map FsEntry.relPath).Nodup) (hr : (rt.map FsEntry.relPath).Nodup) :
    (DirDiff.into_iter lr lt rr rt).drain
        = lt.map (leftPair lr lt rr rt)
          ++ (rt.filter (fun e => !(Tree.existsAt lt e.relPath))).map (rightPair lr rr rt)
    ∧ ((DirDiff.into_iter lr lt rr rt).drain.map
        (fun de => de.left.path.drop lr.length)).Nodup
    ∧ ∀ p : Path,
        ((p ∈ (lt.map (leftPair lr lt rr rt)).map (fun de => de.left.path.drop lr.length))
          ↔ Tree.existsAt lt p = true)
        ∧ ((p ∈ ((rt.filter (fun e => !(Tree.existsAt lt e.relPath))).map
              (rightPair lr rr rt)).map (fun de => de.left.path.drop lr.length))
          ↔ (Tree.existsAt rt p = true ∧ Tree.existsAt lt p = false)) := by
  have hmapL : (lt.map (leftPair lr lt rr rt)).map (fun de => de.left.path.drop lr.length)
      = lt.map FsEntry.relPath := by
    rw [List.map_map]
    apply List.map_congr_left
    intro e _
    simp [leftPair, List.drop_left]
  have hmapR : ((rt.filter (fun e => !(Tree.existsAt lt e.relPath))).map
        (rightPair lr rr rt)).map (fun de => de.left.path.drop lr.length)
      = (rt.filter (fun e => !(Tree.existsAt lt e.relPath))).map FsEntry.relPath := by
    rw [List.map_map]
    apply List.map_congr_left
    intro e _
    simp [rightPair, List.drop_left]
  refine ⟨drain_eq lr lt rr rt, ?_, ?_⟩
  · rw [drain_eq, List.map_append, hmapL, hmapR, List.nodup_append]
    refine ⟨hl, ?_, ?_⟩
    · exact List.Nodup.sublist (List.Sublist.map _ (List.filter_sublist rt)) hr
    · intro p hpL hpR
      rcases List.mem_map.mp hpR with ⟨e, he, hpe⟩
      rcases List.mem_filter.mp he with ⟨_, hpred⟩
      rcases List.mem_map.mp hpL with ⟨e', he', hpe'⟩
      have hex : Tree.existsAt lt p = true := by
        subst hpe'
        exact Tree.existsAt_of_mem he'
      rw [hpe, hex] at hpred
      cases hpred
  · intro p
    constructor
    · rw [hmapL]
      constructor
      · intro hp
        rcases List.mem_map.mp hp with ⟨e, he, hpe⟩
        subst hpe
        exact Tree.existsAt_of_mem he
      · intro hp
        rcases (Tree.existsAt_iff lt p).mp hp with ⟨e, he, hpe⟩
        subst hpe
        exact List.mem_map.mpr ⟨e, he, rfl⟩
    · rw [hmapR]
      constructor
      · intro hp
        rcases List.mem_map.mp hp with ⟨e, he, hpe⟩
        rcases List.mem_filter.mp he with ⟨hert, hpred⟩
        subst hpe
        refine ⟨Tree.existsAt_of_mem hert, ?_⟩
        simpa using hpred
      · rintro ⟨hprt, hpl⟩
        rcases (Tree.existsAt_iff rt p).mp hprt with ⟨e, he, hpe⟩
        subst hpe
        exact List.mem_map.mpr ⟨e, List.mem_filter.mpr ⟨he, by simp [hpl]⟩, rfl⟩

/-- Witness for C2: on one-entry trees with distinct paths the yielded
relative paths are pairwise distinct. -/
theorem paired_walk_union_witness :
    ((DirDiff.into_iter ["L"] [⟨["a"], FileType.dir, []⟩]
        ["R"] [⟨["b"], FileType.dir, []⟩]).drain.map
      (fun de => de.left.path.drop (["L"] : Path).length)).Nodup :=
  (paired_walk_union ["L"] ["R"] [⟨["a"], FileType.dir, []⟩] [⟨["b"], FileType.dir, []⟩]
    (by decide) (by decide)).2.1

/-- C3: every entry the paired walk iterator yields has a present file kind
on at least one side. -/
theorem never_both_missing (lr rr : Path) (lt rt : Tree) (de : DiffEntry)
    (h : de ∈ (DirDiff.into_iter lr lt rr rt).drain) :
    de.left.file_type.isSome = true ∨ de.right.file_type.isSome = true := by
  rw [drain_eq] at h
  rcases List.mem_append.mp h with h | h
  · rcases List.mem_map.mp h with ⟨e, he, rfl⟩
    left
    simpa [leftPair] using Tree.lookup_isSome_of_mem he
  · rcases List.mem_map.mp h with ⟨e, he, rfl⟩
    right
    simpa [rightPair] using Tree.lookup_isSome_of_mem (List.mem_filter.mp he).1

/-- Witness for C3: a left-only file is yielded with a present left kind. -/
theorem never_both_missing_witness :
    ({ left := { path := ["L", "a"], file_type := some FileType.file },
       right := { path := ["R", "a"], file_type := none } } : DiffEntry).left.file_type.isSome
        = true ∨
    ({ left := { path := ["L", "a"], file_type := some FileType.file },
       right := { path := ["R", "a"], file_type := none } } : DiffEntry).right.file_type.isSome
        = true :=
  never_both_missing ["L"] ["R"] [⟨["a"], FileType.file, [120]⟩] []
    { left := { path := ["L", "a"], file_type := some FileType.file },
      right := { path := ["R", "a"], file_type := none } }
    (by decide)

/-- On two traversals of the same tree, the loop of is_different finds no
differing pair provided every regular file reads back its recorded bytes
under both roots. -/
theorem is_different_go_refl (fs : FS) (lr rr : Path) :
    ∀ u : List FsEntry,
      (∀ e ∈ u, e.ftype = .file →
        FS.read_to_vec fs (lr ++ e.relPath) = .ok e.content ∧
        FS.read_to_vec fs (rr ++ e.relPath) = .ok e.content) →
      is_different_go fs (u.map (fun e =>
        ({ depth := e.relPath.length, ftype := e.ftype, name := file_name e.relPath,
           path := lr ++ e.relPath },
         { depth := e.relPath.length, ftype := e.ftype, name := file_name e.relPath,
           path := rr ++ e.relPath }))) = .ok false := by
  intro u
  induction u with
  | nil => intro _; rfl
  | cons e rest ih =>
    intro hu
    have hed : entryDiffers fs
        { depth := e.relPath.length, ftype := e.ftype, name := file_name e.relPath,
          path := lr ++ e.relPath }
        { depth := e.relPath.length, ftype := e.ftype, name := file_name e.relPath,
          path := rr ++ e.relPath } = .ok false := by
      cases hf : e.ftype.is_file with
      | false => simp [entryDiffers, hf]
      | true =>
        have hftype : e.ftype = .file := (FileType.is_file_iff e.ftype).mp hf
        rcases hu e (by simp) hftype with ⟨h1, h2⟩
        simp [entryDiffers, hf, h1, h2]
    simp only [List.map_cons, is_different_go, hed]
    exact ih (fun e' he' hf' => hu e' (by simp [he']) hf')

/-- C5: reflexivity.  Diffing a tree against an identical copy of itself
(even rooted at a different path) yields no differences: every entry the
paired walk iterator yields passes the default policy, and is_different
returns false.  The filesystem hypothesis says each copy reads back the
tree's recorded bytes. -/
theorem reflexive_no_diff (lr rr : Path) (t : Tree) (fs : FS)
    (hnd : (t.map FsEntry.relPath).Nodup)
    (hlread : ∀ e ∈ t, e.ftype = .file →
      FS.read_to_vec fs (lr ++ e.relPath) = .ok e.content)
    (hrread : ∀ e ∈ t, e.ftype = .file →
      FS.read_to_vec fs (rr ++ e.relPath) = .ok e.content) :
    (∀ de ∈ (DirDiff.into_iter lr t rr t).drain, de.assert fs = .ok de) ∧
    is_different fs (walk_dir lr t) (walk_dir rr t) = .ok false := by
  constructor
  · intro de hde
    rw [drain_eq] at hde
    have hfilter : (t.filter (fun e => !(Tree.existsAt t e.relPath))) = [] :=
      List.filter_eq_nil_iff.mpr (fun e he => by simp [Tree.existsAt_of_mem he])
    rw [hfilter] at hde
    simp only [List.map_nil, List.append_nil] at hde
    rcases List.mem_map.mp hde with ⟨e, he, rfl⟩
    have hex : Tree.existsAt t e.relPath = true := Tree.existsAt_of_mem he
    have hlk : Tree.lookup t e.relPath = some e.ftype := Tree.lookup_of_mem_nodup hnd he
    cases hf : e.ftype.is_file with
    | false =>
      simp [leftPair, hex, hlk, DiffEntry.assert, DiffEntry.file_types, hf]
    | true =>
      have hftype : e.ftype = .file := (FileType.is_file_iff e.ftype).mp hf
      have h1 := hlread e he hftype
      have h2 := hrread e he hftype
      simp [leftPair, hex, hlk, DiffEntry.assert, DiffEntry.file_types, hf,
        DiffEntry.content_matches, h1, h2]
  · have hzip : (walk_dir lr t).zip (walk_dir rr t)
        = t.map (fun e =>
          ({ depth := e.relPath.length, ftype := e.ftype, name := file_name e.relPath,
             path := lr ++ e.relPath },
           { depth := e.relPath.length, ftype := e.ftype, name := file_name e.relPath,
             path := rr ++ e.relPath })) := by
      simp [walk_dir, List.zip_map']
    have hgo := is_different_go_refl fs lr rr t
      (fun e he hf => ⟨hlread e he hf, hrread e he hf⟩)
    have hlen : (walk_dir lr t).length = t.length := by simp [walk_dir]
    have hlen2 : (walk_dir rr t).length = t.length := by simp [walk_dir]
    have hca : zip_consumed_a (walk_dir lr t).length (walk_dir rr t).length
        = (walk_dir lr t).length := by
      rw [hlen, hlen2]
      simp [zip_consumed_a]
    have hcb : zip_consumed_b (walk_dir lr t).length (walk_dir rr t).length
        = (walk_dir rr t).length := by
      rw [hlen, hlen2]
      simp [zip_consumed_b]
    rw [is_different, hzip, hgo, hca, hcb, List.drop_length, List.drop_length]
    rfl

/-- Witness for C5: a one-file tree copied under two roots diffs clean. -/
theorem reflexive_no_diff_witness :
    is_different
        [(["L", "a.txt"], { bytes := [120], mtime := 0, perms := 0 }),
         (["R", "a.txt"], { bytes := [120], mtime := 0, perms := 0 })]
        (walk_dir ["L"] [⟨["a.txt"], FileType.file, [120]⟩])
        (walk_dir ["R"] [⟨["a.txt"], FileType.file, [120]⟩])
      = .ok false :=
  (reflexive_no_diff ["L"] ["R"] [⟨["a.txt"], FileType.file, [120]⟩]
    [(["L", "a.txt"], { bytes := [120], mtime := 0, perms := 0 }),
     (["R", "a.txt"], { bytes := [120], mtime := 0, perms := 0 })]
    (by decide)
    (fun e he _ => by rw [List.mem_singleton] at he; subst he; rfl)
    (fun e he _ => by rw [List.mem_singleton] at he; subst he; rfl)).2

/-- C4: divergence between the facade and the fold of the paired walk
iterator with the default policy.  With left tree {a.txt: "x", b.txt: "x"}
and right tree {a.txt: "x"}, is_different returns false — Rust's zip probes
and discards the left walker's trailing extra entry once the right walker is
exhausted, so the post-loop exhaustion checks see nothing left — while the
iterator fold yields an entry for b.txt with the right side missing, which
fails the default policy, so the fold reports a difference. -/
theorem is_different_drops_trailing_left_entry :
    is_different
        [(["L", "a.txt"], { bytes := [120], mtime := 0, perms := 0 }),
         (["L", "b.txt"], { bytes := [120], mtime := 0, perms := 0 }),
         (["R", "a.txt"], { bytes := [120], mtime := 0, perms := 0 })]
        (walk_dir ["L"] [⟨["a.txt"], FileType.file, [120]⟩, ⟨["b.txt"], FileType.file, [120]⟩])
        (walk_dir ["R"] [⟨["a.txt"], FileType.file, [120]⟩])
      = .ok false
    ∧ fold_is_different
        [(["L", "a.txt"], { bytes := [120], mtime := 0, perms := 0 }),
         (["L", "b.txt"], { bytes := [120], mtime := 0, perms := 0 }),
         (["R", "a.txt"], { bytes := [120], mtime := 0, perms := 0 })]
        ["L"] [⟨["a.txt"], FileType.file, [120]⟩, ⟨["b.txt"], FileType.file, [120]⟩]
        ["R"] [⟨["a.txt"], FileType.file, [120]⟩]
      = true :=
  ⟨rfl, rfl⟩

/-- C10: the Clone implementation of InnerIoError never returns on the Io and
WalkDirEmpty variants, at any call-stack depth — the match arms for those
variants call the same clone on the same value — while the WalkDir variant
returns the degraded WalkDirEmpty value in one step. -/
theorem inner_io_error_clone_diverges :
    (∀ n : Nat, InnerIoError.cloneFuel n .WalkDirEmpty = none) ∧
    (∀ (n : Nat) (e : IoErr), InnerIoError.cloneFuel n (.Io e) = none) ∧
    (∀ (n w : Nat), InnerIoError.cloneFuel (n + 1) (.WalkDir w) = some .WalkDirEmpty) := by
  refine ⟨?_, ?_, ?_⟩
  · intro n
    induction n with
    | zero => rfl
    | succ m ih => simpa [InnerIoError.cloneFuel] using ih
  · intro n e
    induction n with
    | zero => rfl
    | succ m ih => simpa [InnerIoError.cloneFuel] using ih
  · intro n w
    rfl

end DirDiffVerify
